import Mathlib

/-!
Shallow embedding of the proksi shadow-testing HTTP reverse proxy: the
config package (route formatting, parsing and wildcard matching, policy
precomputation and runtime lookup), the sampler and worker-queue behaviour
of the front-end handler, and the response-comparison job, together with
theorems settling the specification claims.

Go strings are modelled as lists of characters.
-/

set_option maxHeartbeats 1000000

/-- Go strings are modelled as lists of characters. -/
abbrev Str := List Char

/-- Coercion of a Lean string literal into the character-list model. -/
def str (s : String) : Str := s.data

namespace Gostr

/-- Model of Go strings.ToUpper (character-wise case mapping). -/
def upper (s : Str) : Str := s.map Char.toUpper

/-- Model of Go strings.ToLower (character-wise case mapping). -/
def lower (s : Str) : Str := s.map Char.toLower

/-- Model of Go strings.HasPrefix. -/
def hasPre (s p : Str) : Bool := p.isPrefixOf s

/-- Model of Go strings.HasSuffix. -/
def hasSuf (s suffix : Str) : Bool := suffix.isSuffixOf s

/-- Model of Go strings.TrimSuffix. -/
def trimSuf (s suffix : Str) : Str :=
  if suffix.isSuffixOf s then s.take (s.length - suffix.length) else s

/-- Model of Go strings.Trim with cutset "/": trims leading and trailing
slashes. -/
def trimSlashes (s : Str) : Str :=
  ((s.dropWhile (fun c => c == '/')).reverse.dropWhile (fun c => c == '/')).reverse

/-- Model of Go strings.Split with a one-character separator. Go strings.Split
never returns an empty list: splitting the empty string yields one empty
part. -/
def splitChar (sep : Char) : Str → List Str
  | [] => [[]]
  | c :: cs =>
    if c == sep then [] :: splitChar sep cs
    else
      match splitChar sep cs with
      | [] => [[c]]
      | p :: ps => (c :: p) :: ps

/-- Model of Go strings.SplitN with limit 2: split at the first occurrence of
the separator, or return none when the separator does not occur. -/
def splitFirst (sep : Char) : Str → Option (Str × Str)
  | [] => none
  | c :: cs =>
    if c == sep then some ([], cs)
    else
      match splitFirst sep cs with
      | none => none
      | some (l, r) => some (c :: l, r)

end Gostr

/-- Embedding of config.FormatRoute: uppercase the method and join it to the
path with a colon. -/
def FormatRoute (method path : Str) : Str :=
  Gostr.upper method ++ ':' :: path

/-- Embedding of config.ParseRoute: split on the first colon; when no colon is
present the method defaults to the wildcard star. -/
def ParseRoute (route : Str) : Str × Str :=
  match Gostr.splitFirst ':' route with
  | some (m, p) => (m, p)
  | none => (str "*", route)

/-- Modelled from Go path.Match as called by config.matchPath: in that caller
the pattern never contains a star (the caller routes star patterns to
matchSegmentWildcards first), so only literal characters and the question-mark
wildcard (any single non-slash character) are modelled; character classes do
not occur anywhere in this development. -/
def pathMatch : Str → Str → Bool
  | [], [] => true
  | '?' :: ps, c :: cs => if c == '/' then false else pathMatch ps cs
  | p :: ps, c :: cs => (p == c) && pathMatch ps cs
  | _, _ => false

/-- The segment-by-segment loop at the end of config.matchSegmentWildcards:
the lists must have the same length, a star config segment matches any request
segment, and any other config segment must equal the request segment. -/
def segsMatch : List Str → List Str → Bool
  | [], [] => true
  | c :: cs, r :: rs => (c == str "*" || c == r) && segsMatch cs rs
  | _, _ => false

/-- The empty-path normalisation in config.matchSegmentWildcards: a single
empty segment collapses to no segments. -/
def normEmpty (l : List Str) : List Str :=
  if l == [([] : Str)] then [] else l

/-- Embedding of config.matchSegmentWildcards: a trailing star with no other
star in the pattern is a prefix wildcard; otherwise both paths are split on
slashes and compared segment by segment. -/
def matchSegmentWildcards (requestPath configPath : Str) : Bool :=
  if Gostr.hasSuf configPath (str "/*") &&
      !(((Gostr.splitChar '/' (Gostr.trimSlashes configPath)).dropLast).any
          (fun seg => seg == str "*")) then
    Gostr.hasPre requestPath (Gostr.trimSuf configPath (str "/*"))
  else
    segsMatch (normEmpty (Gostr.splitChar '/' (Gostr.trimSlashes configPath)))
      (normEmpty (Gostr.splitChar '/' (Gostr.trimSlashes requestPath)))

/-- Embedding of config.matchPath: exact match, then star-aware segment
matching, then the Go path.Match fallback. -/
def matchPath (requestPath configPath : Str) : Bool :=
  if requestPath == configPath then true
  else if configPath.contains '*' then matchSegmentWildcards requestPath configPath
  else pathMatch configPath requestPath

/-- Embedding of config.MatchRoute: the config method must be the star
wildcard or equal the request method, and the paths must match. -/
def MatchRoute (requestRoute configRoute : Str) : Bool :=
  let rq := ParseRoute requestRoute
  let cf := ParseRoute configRoute
  if !(cf.1 == str "*") && !(cf.1 == rq.1) then false
  else matchPath rq.2 cf.2

/-- Embedding of config.RouteConfig: the per-route override as loaded from the
configuration file. The four boolean overrides are tri-valued tokens (empty
string means inherit, enable or disable override); the lists are additive and
a zero test probability means inherit. -/
structure RouteConfig where
  compareHeaders : Str
  compareBody : Str
  skipHeaders : List Str
  storeReqBody : Str
  storeRespBodies : Str
  skipJSONPaths : List Str
  testProbability : Nat
deriving DecidableEq, Repr

/-- Embedding of config.ComputedRouteConfig: the fully resolved per-route
policy produced at load time. The uint64 test probability is modelled as a
natural number. -/
structure ComputedRouteConfig where
  compareHeaders : Bool
  compareBody : Bool
  skipHeaders : List Str
  storeReqBody : Bool
  storeRespBodies : Bool
  skipJSONPaths : List Str
  testProbability : Nat
deriving DecidableEq, Repr

/-- The per-route merge step of config.HTTPConfig.PrecomputeRouteConfigs:
start from a copy of the global config, resolve each enable or disable token,
append the route lists to the global lists when non-empty, and take a
non-zero route test probability over the global one. -/
def mergeRouteConfig (global : ComputedRouteConfig) (rc : RouteConfig) :
    ComputedRouteConfig :=
  { compareHeaders :=
      if rc.compareHeaders == str "enable" then true
      else if rc.compareHeaders == str "disable" then false
      else global.compareHeaders
    compareBody :=
      if rc.compareBody == str "enable" then true
      else if rc.compareBody == str "disable" then false
      else global.compareBody
    storeReqBody :=
      if rc.storeReqBody == str "enable" then true
      else if rc.storeReqBody == str "disable" then false
      else global.storeReqBody
    storeRespBodies :=
      if rc.storeRespBodies == str "enable" then true
      else if rc.storeRespBodies == str "disable" then false
      else global.storeRespBodies
    skipHeaders :=
      if rc.skipHeaders.length > 0 then global.skipHeaders ++ rc.skipHeaders
      else global.skipHeaders
    skipJSONPaths :=
      if rc.skipJSONPaths.length > 0 then global.skipJSONPaths ++ rc.skipJSONPaths
      else global.skipJSONPaths
    testProbability :=
      if rc.testProbability > 0 then rc.testProbability
      else global.testProbability }

/-- Embedding of config.GetRouteConfig. The precomputed Routes field is a Go
map; a map iteration visits its entries in some order that is unspecified
(and randomised across runs), so the lookup is modelled over an explicit
entry list that carries one such iteration order: first an exact key lookup,
then the first entry (in the given iteration order) whose pattern matches,
then the global config. -/
def GetRouteConfig (entries : List (Str × ComputedRouteConfig))
    (global : ComputedRouteConfig) (route : Str) : ComputedRouteConfig :=
  match entries.find? (fun e => e.1 == route) with
  | some e => e.2
  | none =>
    match entries.find? (fun e => MatchRoute route e.1) with
    | some e => e.2
    | none => global

/-- Embedding of config.IsRouteSkipped over an explicit iteration order of the
SkipRoutes map: an exact hit, or some skip pattern that matches. Because the
results of the per-entry checks are combined by disjunction, the outcome does
not depend on the iteration order. -/
def IsRouteSkipped (skipRoutes : List Str) (route : Str) : Bool :=
  skipRoutes.contains route || skipRoutes.any (fun sk => MatchRoute route sk)

/-- The sampler admission test of server.handle: after the shared counter is
incremented, the request is admitted when reqCounter mod 100 is below
testProbability minus one, computed in uint64 arithmetic, so the subtraction
wraps around modulo two to the sixty-fourth power when testProbability is
zero. -/
def inBucket (reqCounter testProbability : Nat) : Bool :=
  reqCounter % 100 < (testProbability + (2 ^ 64 - 1)) % 2 ^ 64

/-- Modelled from Go channel semantics for the enqueue in server.handle: the
job channel is a buffered channel of capacity cap created in main, and the
handler performs a plain blocking send on it. The send completes immediately
(appending the job) exactly when the buffer holds fewer than cap jobs;
otherwise the sender blocks, modelled as none. There is no select with a
default branch and no drop counter anywhere in the source. -/
def chanSend {α : Type} (cap : Nat) (queue : List α) (job : α) :
    Option (List α) :=
  if queue.length < cap then some (queue ++ [job]) else none

/-- Embedding of the control flow of server.handle, as far as the client-visible
status write and the shadow enqueue decision are concerned. Each io failure
point is a boolean input. On the skipped path the handler answers errors with
explicit 500 or 502 responses; on the non-skipped path every failure point
merely logs and returns, so no status is written at all. The returned pair is
the status written to the client (none when the handler returns without
writing one) and whether a comparison job is submitted for enqueueing. -/
def serverHandle (skipped bodyReadOk createOk mainCallOk copyRespOk writeOk : Bool)
    (mainStatus reqCounter testProbability : Nat) : Option Nat × Bool :=
  if skipped then
    if !createOk then (some 500, false)
    else if !mainCallOk then (some 502, false)
    else (some mainStatus, false)
  else
    if !bodyReadOk then (none, false)
    else if !createOk then (none, false)
    else if !mainCallOk then (none, false)
    else if !copyRespOk then (some mainStatus, false)
    else if !writeOk then (some mainStatus, false)
    else (some mainStatus, inBucket (reqCounter + 1) testProbability)

/-- Model of a parsed JSON document, the result of Go json.Unmarshal into an
interface value: objects become unordered string-keyed maps, so they are
represented canonically as field lists strictly sorted by key; numbers are
modelled as integers. On these canonical representatives, Go
reflect.DeepEqual of two parsed documents is structural equality. -/
inductive Json where
  | null
  | bool (b : Bool)
  | num (n : Int)
  | str (s : Str)
  | arr (elems : List Json)
  | obj (fields : List (Str × Json))

/-- Builds the nested single-field objects that sjson.Set creates for the
missing tail of a path. -/
def buildPath : List Str → Json → Json
  | [], v => v
  | k :: ks, v => Json.obj [(k, buildPath ks v)]

/-- Updates the field named k in a canonical (key-sorted) field list: apply
upd to the value when the key is present, or insert the fresh value at the
key position when it is absent. -/
def insertWith (k : Str) (upd : Json → Json) (fresh : Json) :
    List (Str × Json) → List (Str × Json)
  | [] => [(k, fresh)]
  | (k1, w) :: fs =>
    if k = k1 then (k1, upd w) :: fs
    else if k < k1 then (k, fresh) :: (k1, w) :: fs
    else (k1, w) :: insertWith k upd fresh fs

/-- Model of sjson.Set followed by re-parsing, on canonical parsed documents:
setting a key path overwrites the value at that path, creating intermediate
single-field objects where the path is absent and replacing any non-object
value encountered on the way. -/
def setPath : List Str → Json → Json → Json
  | [], v, _ => v
  | k :: ks, v, Json.obj fs =>
    Json.obj (insertWith k (fun w => setPath ks v w) (buildPath ks v) fs)
  | k :: ks, v, _ => Json.obj [(k, buildPath ks v)]

/-- The sentinel value the comparison job writes into every skipped JSON
path. -/
def uselessJson : Json := Json.str (str "useless")

/-- Splits a dotted sjson path into its key components. -/
def splitDots (p : Str) : List Str := Gostr.splitChar '.' p

/-- The skip-path rewrite loop of upstreamTestJob.Do: set every listed dotted
path to the sentinel string, in list order. -/
def maskAll (paths : List Str) (j : Json) : Json :=
  paths.foldl (fun acc p => setPath (splitDots p) uselessJson acc) j

/-- Applies a sequence of path updates in order; used to state that one
document is obtained from another by changing values at given paths only. -/
def setAll (ps : List (List Str × Json)) (j : Json) : Json :=
  ps.foldl (fun acc pv => setPath pv.1 pv.2 acc) j

mutual
/-- Structural equality of parsed JSON documents; on canonical representatives
this is the model of Go reflect.DeepEqual as used by JSONBytesEqual. -/
def Json.beq : Json → Json → Bool
  | .null, .null => true
  | .bool a, .bool b => a == b
  | .num a, .num b => a == b
  | .str a, .str b => a == b
  | .arr xs, .arr ys => Json.beqList xs ys
  | .obj fs, .obj gs => Json.beqFields fs gs
  | _, _ => false

/-- Pointwise structural equality of JSON arrays. -/
def Json.beqList : List Json → List Json → Bool
  | [], [] => true
  | x :: xs, y :: ys => Json.beq x y && Json.beqList xs ys
  | _, _ => false

/-- Pointwise structural equality of JSON field lists. -/
def Json.beqFields : List (Str × Json) → List (Str × Json) → Bool
  | [], [] => true
  | (k, v) :: fs, (k1, w) :: gs => k == k1 && Json.beq v w && Json.beqFields fs gs
  | _, _ => false
end

/-- Embedding of upstreamTestJob.compareHeaders. Go http.Header maps are
modelled as association lists carrying one iteration order. A name is
reported when it is not case-insensitively in the skip list and is present
on one side only, or has value lists of different lengths, or has a
positional value mismatch; main-side names come first, then names present
only on the test side. -/
def compareHeadersFn (skipHeaders : List Str)
    (mainHeaders testHeaders : List (Str × List Str)) : List Str :=
  let skipLower := skipHeaders.map Gostr.lower
  (mainHeaders.filterMap fun e =>
    if Gostr.lower e.1 ∈ skipLower then none
    else
      match testHeaders.find? (fun t => t.1 == e.1) with
      | none => some e.1
      | some t =>
        if e.2.length ≠ t.2.length then some e.1
        else if (e.2.zip t.2).any (fun p => !(p.1 == p.2)) then some e.1
        else none)
  ++ testHeaders.filterMap fun e =>
    if Gostr.lower e.1 ∈ skipLower then none
    else if (mainHeaders.find? (fun m => m.1 == e.1)).isSome then none
    else some e.1

/-- A captured response body: the raw bytes together with the result of
parsing them as JSON (none models a json.Unmarshal error). -/
structure Body where
  raw : Str
  parsed : Option Json

/-- Embedding of JSONBytesEqual: unmarshal both sides (either side failing to
parse is an error) and compare the parsed documents with DeepEqual. -/
def JSONBytesEqual (a b : Body) : Except Unit Bool :=
  match a.parsed with
  | none => Except.error ()
  | some ja =>
    match b.parsed with
    | none => Except.error ()
    | some jb => Except.ok (Json.beq jb ja)

/-- Embedding of dummyBytesEqual: byte equality of the raw bodies. -/
def dummyBytesEqual (a b : Body) : Except Unit Bool :=
  Except.ok (a.raw == b.raw)

/-- The content-type switch of upstreamTestJob.Do: the JSON comparator and
the skip-path rewrite are chosen for the two JSON media types; anything else
gets byte equality. -/
def contentTypeIsJson (ct : Str) : Bool :=
  Gostr.lower ct == str "application/json" ||
    Gostr.lower ct == str "application/ld+json"

/-- The comparison-type label of a stored record. -/
inductive CompType where
  | statusDiff
  | headerDiff
  | bodyDiff
deriving DecidableEq, Repr

/-- The kind label of the comparison-result metric emitted by a job. -/
inductive CompMetric where
  | statusDiff
  | headerDiff
  | bodyDiff
  | identical
deriving DecidableEq, Repr

/-- The storage record of a comparison job, restricted to the fields the
claims are about: the comparison type, the differing header names and the
optionally stored request body. The url, method, route, header and status
fields of storage.Log are pass-through metadata and are not modelled. -/
structure LogRec where
  comparisonType : CompType
  differentHeaders : List Str
  requestBody : Option Str
deriving DecidableEq, Repr

/-- Embedding of upstreamTestJob.Do. A failed test-upstream call returns with
no record and no comparison metric. Otherwise the statuses are compared
first, then (when the policy asks for it) the headers, then the body with
the comparator selected by content type; a JSON parse error on either side
aborts with no record. When the JSON bodies differ and the statuses agree,
both documents are rewritten by setting every configured skip path to the
sentinel and compared again. The result is the stored record (at most one)
and the comparison metric. -/
def doJob (cfg : ComputedRouteConfig) (testCallOk : Bool)
    (mainStatus testStatus : Nat) (reqBody : Str)
    (mainHeaders testHeaders : List (Str × List Str)) (contentType : Str)
    (mainBody testBody : Body) : Option LogRec × Option CompMetric :=
  if !testCallOk then (none, none)
  else if !(testStatus == mainStatus) then
    (some { comparisonType := CompType.statusDiff, differentHeaders := [],
            requestBody := if cfg.storeReqBody then some reqBody else none },
      some CompMetric.statusDiff)
  else
    let headerRecord : Option LogRec :=
      if cfg.compareHeaders then
        let dh := compareHeadersFn cfg.skipHeaders mainHeaders testHeaders
        if !dh.isEmpty then
          some { comparisonType := CompType.headerDiff, differentHeaders := dh,
                 requestBody := if cfg.storeReqBody then some reqBody else none }
        else none
      else none
    match headerRecord with
    | some r => (some r, some CompMetric.headerDiff)
    | none =>
      let isJson := contentTypeIsJson contentType
      let cmp :=
        if isJson then JSONBytesEqual mainBody testBody
        else dummyBytesEqual mainBody testBody
      match cmp with
      | Except.error _ => (none, none)
      | Except.ok eq1 =>
        let eq2 :=
          if !eq1 && isJson && testStatus == mainStatus then
            match mainBody.parsed, testBody.parsed with
            | some ja, some jb =>
              Json.beq (maskAll cfg.skipJSONPaths jb) (maskAll cfg.skipJSONPaths ja)
            | _, _ => eq1
          else eq1
        if eq2 then (none, some CompMetric.identical)
        else
          (some { comparisonType := CompType.bodyDiff, differentHeaders := [],
                  requestBody := if cfg.storeReqBody then some reqBody else none },
            some CompMetric.bodyDiff)

theorem insertWith_same (k : Str) (u1 u2 : Json → Json) (f1 f2 : Json) :
    ∀ fs, insertWith k u1 f1 (insertWith k u2 f2 fs)
      = insertWith k (fun w => u1 (u2 w)) (u1 f2) fs := by
  intro fs
  induction fs with
  | nil => simp [insertWith]
  | cons e fs ih =>
    obtain ⟨k1, w⟩ := e
    by_cases h1 : k = k1
    · simp [insertWith, h1]
    · by_cases h2 : k < k1
      · simp [insertWith, h1, h2]
      · simp [insertWith, h1, h2, ih]

theorem insertWith_comm (k k1 : Str) (u u1 : Json → Json) (f f1 : Json)
    (hne : k ≠ k1) :
    ∀ fs, insertWith k u f (insertWith k1 u1 f1 fs)
      = insertWith k1 u1 f1 (insertWith k u f fs) := by
  intro fs
  induction fs with
  | nil =>
    rcases lt_or_gt_of_ne hne with h | h
    · simp [insertWith, hne, hne.symm, h, asymm h, le_of_lt h]
    · simp [insertWith, hne, hne.symm, h, asymm h]
  | cons e fs ih =>
    obtain ⟨k2, w⟩ := e
    by_cases ha : k = k2
    · subst ha
      by_cases hb : k1 < k
      · simp [insertWith, hne.symm, hb, hne, asymm hb]
      · rcases lt_or_gt_of_ne hne.symm with h | h
        · exact absurd h hb
        · simp [insertWith, hne.symm, hb, hne, h]
    · by_cases hb : k1 = k2
      · subst hb
        by_cases hc : k < k1
        · simp [insertWith, hne, hne.symm, ha, hc, asymm hc]
        · rcases lt_or_gt_of_ne hne with h | h
          · exact absurd h hc
          · simp [insertWith, hne, hne.symm, ha, hc, h]
      · by_cases hc : k < k2
        · by_cases hd : k1 < k2
          · rcases lt_or_gt_of_ne hne with h | h
            · simp [insertWith, ha, hb, hc, hd, hne, hne.symm, h, asymm h]
            · simp [insertWith, ha, hb, hc, hd, hne, hne.symm, h, asymm h]
          · have hkk1 : k < k1 := lt_trans hc (lt_of_le_of_ne (not_lt.mp hd) (Ne.symm hb))
            simp [insertWith, ha, hb, hc, hd, hne, hne.symm, asymm hkk1]
        · by_cases hd : k1 < k2
          · have hk1k : k1 < k := lt_trans hd (lt_of_le_of_ne (not_lt.mp hc) (Ne.symm ha))
            simp [insertWith, ha, hb, hc, hd, hne, hne.symm, asymm hk1k, le_of_lt hk1k]
          · simp [insertWith, ha, hb, hc, hd, ih]

theorem insertWith_congr (k : Str) (u1 u2 : Json → Json) (f1 f2 : Json)
    (hu : ∀ w, u1 w = u2 w) (hf : f1 = f2) :
    ∀ fs, insertWith k u1 f1 fs = insertWith k u2 f2 fs := by
  intro fs
  induction fs with
  | nil => simp [insertWith, hf]
  | cons e fs ih =>
    obtain ⟨k1, w⟩ := e
    by_cases h1 : k = k1
    · simp [insertWith, h1, hu]
    · by_cases h2 : k < k1
      · simp [insertWith, h1, h2, hf]
      · simp [insertWith, h1, h2, ih]

theorem setPath_buildPath_pre (q : List Str) :
    ∀ r u v, setPath q u (buildPath (q ++ r) v) = buildPath q u := by
  induction q with
  | nil => intro r u v; simp [setPath, buildPath]
  | cons k q ih => intro r u v; simp [buildPath, setPath, insertWith, ih]

theorem setPath_buildPath_ext (p : List Str) :
    ∀ r u v, setPath (p ++ r) u (buildPath p v) = buildPath p (setPath r u v) := by
  induction p with
  | nil => intro r u v; simp [buildPath]
  | cons k p ih => intro r u v; simp [buildPath, setPath, insertWith, ih]

theorem setPath_buildPath_incomp :
    ∀ p q u v, ¬ (p <+: q) → ¬ (q <+: p) →
      setPath q u (buildPath p v) = setPath p v (buildPath q u) := by
  intro p
  induction p with
  | nil => intro q u v h1 _; exact absurd List.nil_prefix h1
  | cons k p ih =>
    intro q u v h1 h2
    cases q with
    | nil => exact absurd List.nil_prefix h2
    | cons k1 q =>
      by_cases hk : k = k1
      · subst hk
        have h1' : ¬ (p <+: q) := fun hc => h1 (List.cons_prefix_cons.mpr ⟨rfl, hc⟩)
        have h2' : ¬ (q <+: p) := fun hc => h2 (List.cons_prefix_cons.mpr ⟨rfl, hc⟩)
        simp [buildPath, setPath, insertWith, ih q u v h1' h2']
      · rcases lt_or_gt_of_ne hk with h | h
        · simp [buildPath, setPath, insertWith, hk, Ne.symm hk, h, asymm h]
        · simp [buildPath, setPath, insertWith, hk, Ne.symm hk, h, asymm h]

theorem setPath_set_pre (q : List Str) :
    ∀ r u v a, setPath q u (setPath (q ++ r) v a) = setPath q u a := by
  induction q with
  | nil => intro r u v a; simp [setPath]
  | cons k q ih =>
    intro r u v a
    cases a with
    | obj fs =>
      simp only [List.cons_append, setPath]
      rw [insertWith_same]
      congr 1
      exact insertWith_congr k _ _ _ _ (fun w => ih r u v w)
        (setPath_buildPath_pre q r u v) fs
    | null => simp [setPath, insertWith, setPath_buildPath_pre q r u v]
    | bool b => simp [setPath, insertWith, setPath_buildPath_pre q r u v]
    | num n => simp [setPath, insertWith, setPath_buildPath_pre q r u v]
    | str s => simp [setPath, insertWith, setPath_buildPath_pre q r u v]
    | arr xs => simp [setPath, insertWith, setPath_buildPath_pre q r u v]

theorem setPath_set_ext (p : List Str) :
    ∀ r u v a, setPath (p ++ r) u (setPath p v a)
      = setPath p (setPath r u v) (setPath (p ++ r) u a) := by
  induction p with
  | nil => intro r u v a; simp [setPath]
  | cons k p ih =>
    intro r u v a
    cases a with
    | obj fs =>
      simp only [List.cons_append, setPath]
      rw [insertWith_same, insertWith_same]
      congr 1
      refine insertWith_congr k _ _ _ _ (fun w => ih r u v w) ?_ fs
      simp only [List.append_eq]
      rw [setPath_buildPath_ext, setPath_buildPath_pre]
    | null => simp [setPath, insertWith, setPath_buildPath_ext, setPath_buildPath_pre]
    | bool b => simp [setPath, insertWith, setPath_buildPath_ext, setPath_buildPath_pre]
    | num n => simp [setPath, insertWith, setPath_buildPath_ext, setPath_buildPath_pre]
    | str s => simp [setPath, insertWith, setPath_buildPath_ext, setPath_buildPath_pre]
    | arr xs => simp [setPath, insertWith, setPath_buildPath_ext, setPath_buildPath_pre]

theorem setPath_set_incomp :
    ∀ p q u v a, ¬ (p <+: q) → ¬ (q <+: p) →
      setPath q u (setPath p v a) = setPath p v (setPath q u a) := by
  intro p
  induction p with
  | nil => intro q u v a h1 _; exact absurd List.nil_prefix h1
  | cons k p ih =>
    intro q u v a h1 h2
    cases q with
    | nil => exact absurd List.nil_prefix h2
    | cons k1 q =>
      by_cases hk : k = k1
      · subst hk
        have h1' : ¬ (p <+: q) := fun hc => h1 (List.cons_prefix_cons.mpr ⟨rfl, hc⟩)
        have h2' : ¬ (q <+: p) := fun hc => h2 (List.cons_prefix_cons.mpr ⟨rfl, hc⟩)
        cases a with
        | obj fs =>
          simp only [setPath]
          rw [insertWith_same, insertWith_same]
          congr 1
          exact insertWith_congr k _ _ _ _ (fun w => ih q u v w h1' h2')
            (setPath_buildPath_incomp p q u v h1' h2') fs
        | null => simp [setPath, insertWith, setPath_buildPath_incomp p q u v h1' h2']
        | bool b => simp [setPath, insertWith, setPath_buildPath_incomp p q u v h1' h2']
        | num n => simp [setPath, insertWith, setPath_buildPath_incomp p q u v h1' h2']
        | str s => simp [setPath, insertWith, setPath_buildPath_incomp p q u v h1' h2']
        | arr xs => simp [setPath, insertWith, setPath_buildPath_incomp p q u v h1' h2']
      · cases a with
        | obj fs =>
          simp only [setPath]
          congr 1
          exact insertWith_comm k1 k _ _ _ _ (Ne.symm hk) fs
        | null =>
          rcases lt_or_gt_of_ne hk with h | h
          · simp [setPath, insertWith, hk, Ne.symm hk, h, asymm h]
          · simp [setPath, insertWith, hk, Ne.symm hk, h, asymm h]
        | bool b =>
          rcases lt_or_gt_of_ne hk with h | h
          · simp [setPath, insertWith, hk, Ne.symm hk, h, asymm h]
          · simp [setPath, insertWith, hk, Ne.symm hk, h, asymm h]
        | num n =>
          rcases lt_or_gt_of_ne hk with h | h
          · simp [setPath, insertWith, hk, Ne.symm hk, h, asymm h]
          · simp [setPath, insertWith, hk, Ne.symm hk, h, asymm h]
        | str s =>
          rcases lt_or_gt_of_ne hk with h | h
          · simp [setPath, insertWith, hk, Ne.symm hk, h, asymm h]
          · simp [setPath, insertWith, hk, Ne.symm hk, h, asymm h]
        | arr xs =>
          rcases lt_or_gt_of_ne hk with h | h
          · simp [setPath, insertWith, hk, Ne.symm hk, h, asymm h]
          · simp [setPath, insertWith, hk, Ne.symm hk, h, asymm h]

theorem maskAll_setPath (P : List Str) :
    ∀ ps v a, (∃ d ∈ P, ps = splitDots d) →
      maskAll P (setPath ps v a) = maskAll P a := by
  induction P with
  | nil =>
    rintro ps v a ⟨d, hd, _⟩
    exact absurd hd (List.not_mem_nil d)
  | cons q P ih =>
    rintro ps v a ⟨d, hd, hps⟩
    subst hps
    simp only [maskAll, List.foldl_cons]
    by_cases hqp : splitDots q <+: splitDots d
    · obtain ⟨r, hr⟩ := hqp
      exact congrArg (maskAll P) (by rw [← hr, setPath_set_pre])
    · have hdP : d ∈ P := by
        rcases List.mem_cons.mp hd with h | h
        · exact absurd (h ▸ List.prefix_refl _) hqp
        · exact h
      by_cases hpq : splitDots d <+: splitDots q
      · obtain ⟨r, hr⟩ := hpq
        rw [show setPath (splitDots q) uselessJson (setPath (splitDots d) v a)
              = setPath (splitDots d) (setPath r uselessJson v)
                  (setPath (splitDots q) uselessJson a) by
            rw [← hr]; exact setPath_set_ext (splitDots d) r uselessJson v a]
        exact ih (splitDots d) (setPath r uselessJson v) _ ⟨d, hdP, rfl⟩
      · rw [setPath_set_incomp (splitDots d) (splitDots q) uselessJson v a hpq hqp]
        exact ih (splitDots d) v _ ⟨d, hdP, rfl⟩

theorem maskAll_setAll (paths : List Str) :
    ∀ S a, (∀ pv ∈ S, ∃ d ∈ paths, pv.1 = splitDots d) →
      maskAll paths (setAll S a) = maskAll paths a := by
  intro S
  induction S with
  | nil => intro a _; rfl
  | cons pv S ih =>
    intro a h
    have hstep : setAll (pv :: S) a = setAll S (setPath pv.1 pv.2 a) := rfl
    rw [hstep, ih (setPath pv.1 pv.2 a) (fun x hx => h x (List.mem_cons_of_mem pv hx)),
      maskAll_setPath paths pv.1 pv.2 a (h pv (List.mem_cons_self pv S))]

mutual
theorem Json.beq_refl : (a : Json) → Json.beq a a = true
  | .null => rfl
  | .bool b => by simp [Json.beq]
  | .num n => by simp [Json.beq]
  | .str s => by simp [Json.beq]
  | .arr xs => by simp [Json.beq, Json.beqList_refl xs]
  | .obj fs => by simp [Json.beq, Json.beqFields_refl fs]

theorem Json.beqList_refl : (xs : List Json) → Json.beqList xs xs = true
  | [] => rfl
  | x :: xs => by simp [Json.beqList, Json.beq_refl x, Json.beqList_refl xs]

theorem Json.beqFields_refl : (fs : List (Str × Json)) → Json.beqFields fs fs = true
  | [] => rfl
  | (k, v) :: fs => by
    simp [Json.beqFields, Json.beq_refl v, Json.beqFields_refl fs]
end

theorem toNat_ofNat_valid (n : Nat) (h : n.isValidChar) : (Char.ofNat n).toNat = n := by
  rw [Char.ofNat, dif_pos h]
  rfl

theorem toUpper_colon (c : Char) (h : Char.toUpper c = ':') : c = ':' := by
  simp only [Char.toUpper] at h
  by_cases hl : c.toNat ≥ 97 ∧ c.toNat ≤ 122
  · rw [if_pos hl] at h
    exfalso
    have h3 : (Char.ofNat (c.toNat - 32)).toNat = c.toNat - 32 :=
      toNat_ofNat_valid _ (Or.inl (by omega))
    have h4 := congrArg Char.toNat h
    rw [h3] at h4
    have h5 : Char.toNat ':' = 58 := by decide
    omega
  · rw [if_neg hl] at h
    exact h

theorem splitFirst_append (s t : Str) (h : ':' ∉ s) :
    Gostr.splitFirst ':' (s ++ ':' :: t) = some (s, t) := by
  induction s with
  | nil => simp [Gostr.splitFirst]
  | cons c s ih =>
    have hc : ¬((c == ':') = true) := by
      simp only [beq_iff_eq]
      exact fun hcc => h (hcc ▸ List.mem_cons_self c s)
    simp only [List.cons_append, Gostr.splitFirst, if_neg hc, List.append_eq,
      ih (fun hm => h (List.mem_cons_of_mem c hm))]

theorem segsMatch_length : ∀ cs rs, segsMatch cs rs = true → cs.length = rs.length := by
  intro cs
  induction cs with
  | nil =>
    intro rs h
    cases rs with
    | nil => rfl
    | cons r rs => simp [segsMatch] at h
  | cons c cs ih =>
    intro rs h
    cases rs with
    | nil => simp [segsMatch] at h
    | cons r rs =>
      simp only [segsMatch, Bool.and_eq_true] at h
      simp [ih rs h.2]

/-- C1: the sampler admission test of server.handle, evaluated at the inputs
the claim fails on. The probability is a uint64, so with test probability
zero the subtraction in the admission comparison wraps around and every
counter value is admitted, while with probability one hundred a counter value
congruent to ninety-nine modulo one hundred is rejected. -/
theorem c1_sampler_failing_inputs :
    (∀ n, inBucket n 0 = true) ∧ inBucket 99 100 = false := by
  constructor
  · intro n
    have h : n % 100 < 100 := Nat.mod_lt n (by norm_num)
    simp only [inBucket, decide_eq_true_eq]
    omega
  · decide

/-- C3: server.handle evaluated at the failing inputs of the claim. On a
non-skipped request a main-upstream transport error, and likewise a
request-body read error, make the handler log and return without writing any
status code (in particular neither 502 nor 500) and without submitting a
comparison job; the explicit 500 and 502 error responses exist only on the
skipped-route path. -/
theorem c3_handle_failing_inputs :
    (∀ copyOk writeOk st ctr p,
      serverHandle false true true false copyOk writeOk st ctr p = (none, false)) ∧
    (∀ createOk mainOk copyOk writeOk st ctr p,
      serverHandle false false createOk mainOk copyOk writeOk st ctr p = (none, false)) ∧
    serverHandle true true true false true true 200 0 100 = (some 502, false) :=
  ⟨fun _ _ _ _ _ => rfl, fun _ _ _ _ _ _ _ => rfl, rfl⟩

/-- C4 counterexample: enqueueing into a full queue evaluated concretely. The
blocking channel send does not complete (none); in particular the enqueue
does not return with the queue unchanged as the claim states, and no drop
counter exists anywhere in the source. -/
theorem c4_full_queue_counterexample :
    chanSend 2 [0, 1] 5 = none ∧ chanSend 2 [0, 1] 5 ≠ some [0, 1] := by
  exact ⟨rfl, by decide⟩

/-- C4 amended: the enqueue in server.handle is a plain blocking send on the
buffered job channel created in main. Whenever the queue already holds at
least its capacity of jobs the send cannot complete and the handler blocks;
nothing is dropped and the queue is not modified. -/
theorem c4_enqueue_blocks_when_full (cap : Nat) (q : List Nat) (j : Nat)
    (h : cap ≤ q.length) : chanSend cap q j = none := by
  simp [chanSend, Nat.not_lt.mpr h]

theorem c4_enqueue_blocks_when_full_witness :
    2 ≤ ([0, 1] : List Nat).length ∧ chanSend 2 [0, 1] 7 = none :=
  ⟨by decide, c4_enqueue_blocks_when_full 2 [0, 1] 7 (by decide)⟩

/-- C10: round trip of the route-key encoding: for every method string with
no colon and every path (which may itself contain colons, since only the
first colon splits), parsing the formatted route returns the uppercased
method and the path unchanged. -/
theorem c10_route_roundtrip (m p : Str) (h : ':' ∉ m) :
    ParseRoute (FormatRoute m p) = (Gostr.upper m, p) := by
  have h2 : ':' ∉ Gostr.upper m := by
    intro hc
    obtain ⟨c, hcm, hcu⟩ := List.mem_map.mp hc
    exact h ((toUpper_colon c hcu) ▸ hcm)
  unfold ParseRoute FormatRoute
  rw [splitFirst_append (Gostr.upper m) p h2]

theorem c10_route_roundtrip_witness :
    ':' ∉ str "get" ∧
      ParseRoute (FormatRoute (str "get") (str "/api:test"))
        = (str "GET", str "/api:test") := by
  refine ⟨by decide, ?_⟩
  rw [c10_route_roundtrip (str "get") (str "/api:test") (by decide)]
  decide

/-- C5: the load-time resolution of a route override against the global
policy in PrecomputeRouteConfigs: an empty token inherits the global boolean
while enable and disable override it literally; a zero test probability
inherits while any non-zero value overrides; and each list field is the
global entries followed by the override entries, duplicates retained. -/
theorem c5_policy_resolution (g : ComputedRouteConfig) (rc : RouteConfig) :
    ((rc.compareHeaders = str "" →
        (mergeRouteConfig g rc).compareHeaders = g.compareHeaders) ∧
      (rc.compareHeaders = str "enable" →
        (mergeRouteConfig g rc).compareHeaders = true) ∧
      (rc.compareHeaders = str "disable" →
        (mergeRouteConfig g rc).compareHeaders = false)) ∧
    ((rc.compareBody = str "" →
        (mergeRouteConfig g rc).compareBody = g.compareBody) ∧
      (rc.compareBody = str "enable" →
        (mergeRouteConfig g rc).compareBody = true) ∧
      (rc.compareBody = str "disable" →
        (mergeRouteConfig g rc).compareBody = false)) ∧
    ((rc.storeReqBody = str "" →
        (mergeRouteConfig g rc).storeReqBody = g.storeReqBody) ∧
      (rc.storeReqBody = str "enable" →
        (mergeRouteConfig g rc).storeReqBody = true) ∧
      (rc.storeReqBody = str "disable" →
        (mergeRouteConfig g rc).storeReqBody = false)) ∧
    ((rc.storeRespBodies = str "" →
        (mergeRouteConfig g rc).storeRespBodies = g.storeRespBodies) ∧
      (rc.storeRespBodies = str "enable" →
        (mergeRouteConfig g rc).storeRespBodies = true) ∧
      (rc.storeRespBodies = str "disable" →
        (mergeRouteConfig g rc).storeRespBodies = false)) ∧
    ((rc.testProbability = 0 →
        (mergeRouteConfig g rc).testProbability = g.testProbability) ∧
      (rc.testProbability ≠ 0 →
        (mergeRouteConfig g rc).testProbability = rc.testProbability)) ∧
    (mergeRouteConfig g rc).skipHeaders = g.skipHeaders ++ rc.skipHeaders ∧
    (mergeRouteConfig g rc).skipJSONPaths = g.skipJSONPaths ++ rc.skipJSONPaths := by
  refine ⟨⟨fun h => ?_, fun h => ?_, fun h => ?_⟩, ⟨fun h => ?_, fun h => ?_, fun h => ?_⟩,
    ⟨fun h => ?_, fun h => ?_, fun h => ?_⟩, ⟨fun h => ?_, fun h => ?_, fun h => ?_⟩,
    ⟨fun h => ?_, fun h => ?_⟩, ?_, ?_⟩
  all_goals try (simp only [mergeRouteConfig, h]; rfl)
  · simp [mergeRouteConfig, Nat.pos_of_ne_zero h]
  · cases hsk : rc.skipHeaders <;> simp [mergeRouteConfig, hsk]
  · cases hsk : rc.skipJSONPaths <;> simp [mergeRouteConfig, hsk]

theorem c5_policy_resolution_witness :
    (mergeRouteConfig ⟨true, true, [str "Date"], false, true, [str "ts"], 100⟩
        ⟨str "disable", str "", [str "Auth"], str "enable", str "", [str "id"], 0⟩).compareHeaders
      = false ∧
    (mergeRouteConfig ⟨true, true, [str "Date"], false, true, [str "ts"], 100⟩
        ⟨str "disable", str "", [str "Auth"], str "enable", str "", [str "id"], 0⟩).testProbability
      = 100 ∧
    (mergeRouteConfig ⟨true, true, [str "Date"], false, true, [str "ts"], 100⟩
        ⟨str "disable", str "", [str "Auth"], str "enable", str "", [str "id"], 0⟩).skipHeaders
      = [str "Date", str "Auth"] := by
  refine ⟨(c5_policy_resolution _ _).1.2.2 rfl, (c5_policy_resolution _ _).2.2.2.2.1.1 rfl, ?_⟩
  rw [(c5_policy_resolution _ _).2.2.2.2.2.1]
  decide

/-- C2: the route-config lookup depends on the iteration order of the Routes
map. With two wildcard patterns that both match the request and no exact
entry, one iteration order of the same two-entry map returns the first
config and the opposite order returns the second. A Go map carries no
configuration order and its iteration order is unspecified, so the
pattern appearing earlier in the configuration does not in general win. -/
theorem c2_lookup_order_dependent :
    GetRouteConfig [(str "GET:/a/*", ⟨true, true, [], false, true, [], 50⟩),
        (str "GET:/*/b", ⟨true, true, [], false, true, [], 10⟩)]
      ⟨true, true, [], false, true, [], 100⟩ (str "GET:/a/b")
      = ⟨true, true, [], false, true, [], 50⟩ ∧
    GetRouteConfig [(str "GET:/*/b", ⟨true, true, [], false, true, [], 10⟩),
        (str "GET:/a/*", ⟨true, true, [], false, true, [], 50⟩)]
      ⟨true, true, [], false, true, [], 100⟩ (str "GET:/a/b")
      = ⟨true, true, [], false, true, [], 10⟩ ∧
    (⟨true, true, [], false, true, [], 50⟩ : ComputedRouteConfig)
      ≠ ⟨true, true, [], false, true, [], 10⟩ :=
  ⟨by decide, by decide, by decide⟩

/-- C8 counterexample: the single-segment wildcard also accepts an empty
request segment. The pattern with a star in the middle matches the request
whose corresponding segment is empty, contradicting the claim that a
non-trailing star matches exactly one non-empty segment. -/
theorem c8_wildcard_counterexample :
    MatchRoute (str "GET:/u//p") (str "GET:/u/*/p") = true ∧
      Gostr.splitChar '/' (Gostr.trimSlashes (str "/u//p"))
        = [str "u", str "", str "p"] :=
  ⟨by decide, by decide⟩

/-- C8 amended: a star pattern segment that is not a lone trailing wildcard
matches exactly one request path segment, which may be empty, and the request
path must have the same number of segments as the pattern: the claim examples
hold, the empty middle segment is also accepted, and whenever the pattern is
not of the lone-trailing-wildcard form a successful segment match forces
equal segment counts. -/
theorem c8_single_segment_wildcard (requestPath configPath : Str)
    (hform : (Gostr.hasSuf configPath (str "/*") &&
        !(((Gostr.splitChar '/' (Gostr.trimSlashes configPath)).dropLast).any
            (fun seg => seg == str "*"))) = false)
    (hmatch : matchSegmentWildcards requestPath configPath = true) :
    (normEmpty (Gostr.splitChar '/' (Gostr.trimSlashes configPath))).length
      = (normEmpty (Gostr.splitChar '/' (Gostr.trimSlashes requestPath))).length ∧
    MatchRoute (str "GET:/u/42/p") (str "GET:/u/*/p") = true ∧
    MatchRoute (str "GET:/u/42/43/p") (str "GET:/u/*/p") = false ∧
    MatchRoute (str "GET:/u//p") (str "GET:/u/*/p") = true := by
  refine ⟨?_, by decide, by decide, by decide⟩
  unfold matchSegmentWildcards at hmatch
  rw [if_neg (by simp [hform])] at hmatch
  exact segsMatch_length _ _ hmatch

theorem c8_single_segment_wildcard_witness :
    (normEmpty (Gostr.splitChar '/' (Gostr.trimSlashes (str "/u/*/p")))).length
      = (normEmpty (Gostr.splitChar '/' (Gostr.trimSlashes (str "/u/42/p")))).length :=
  (c8_single_segment_wildcard (str "/u/42/p") (str "/u/*/p") (by decide) (by decide)).1

/-- C9: soundness of the header diff: every name produced by compareHeaders
occurs among the main or the test header names, and no produced name is
case-insensitively in the skip list. -/
theorem c9_different_headers_sound (skips : List Str)
    (mainHeaders testHeaders : List (Str × List Str)) :
    ∀ k ∈ compareHeadersFn skips mainHeaders testHeaders,
      (k ∈ mainHeaders.map Prod.fst ∨ k ∈ testHeaders.map Prod.fst) ∧
        Gostr.lower k ∉ skips.map Gostr.lower := by
  intro k hk
  simp only [compareHeadersFn] at hk
  rcases List.mem_append.mp hk with h | h
  · obtain ⟨e, he, hke⟩ := List.mem_filterMap.mp h
    by_cases hskip : Gostr.lower e.1 ∈ skips.map Gostr.lower
    · rw [if_pos hskip] at hke
      cases hke
    · rw [if_neg hskip] at hke
      have hk1 : k = e.1 := by
        split at hke
        · exact (Option.some.inj hke).symm
        · split at hke
          · exact (Option.some.inj hke).symm
          · split at hke
            · exact (Option.some.inj hke).symm
            · cases hke
      subst hk1
      exact ⟨Or.inl (List.mem_map.mpr ⟨e, he, rfl⟩), hskip⟩
  · obtain ⟨e, he, hke⟩ := List.mem_filterMap.mp h
    by_cases hskip : Gostr.lower e.1 ∈ skips.map Gostr.lower
    · rw [if_pos hskip] at hke
      cases hke
    · rw [if_neg hskip] at hke
      have hk1 : k = e.1 := by
        split at hke
        · cases hke
        · exact (Option.some.inj hke).symm
      subst hk1
      exact ⟨Or.inr (List.mem_map.mpr ⟨e, he, rfl⟩), hskip⟩

theorem c9_different_headers_sound_witness :
    (str "ETag" ∈ ([(str "ETag", [str "v1"]), (str "Date", [str "A"])] :
          List (Str × List Str)).map Prod.fst ∨
        str "ETag" ∈ ([(str "ETag", [str "v2"]), (str "Date", [str "B"])] :
          List (Str × List Str)).map Prod.fst) ∧
      Gostr.lower (str "ETag") ∉ [str "Date"].map Gostr.lower :=
  c9_different_headers_sound [str "Date"]
    [(str "ETag", [str "v1"]), (str "Date", [str "A"])]
    [(str "ETag", [str "v2"]), (str "Date", [str "B"])]
    (str "ETag") (by decide)

theorem c6_body_phase_shape (cfg : ComputedRouteConfig) (tSt : Nat) (rb : Str)
    (mh th : List (Str × List Str)) (ct : Str) (mb tb : Body)
    (hhr : (if cfg.compareHeaders then
        (if !(compareHeadersFn cfg.skipHeaders mh th).isEmpty then
          some { comparisonType := CompType.headerDiff,
                 differentHeaders := compareHeadersFn cfg.skipHeaders mh th,
                 requestBody := if cfg.storeReqBody then some rb else none }
         else none)
       else none) = (none : Option LogRec)) :
    doJob cfg true tSt tSt rb mh th ct mb tb
        = (some { comparisonType := CompType.bodyDiff, differentHeaders := [],
                  requestBody := if cfg.storeReqBody then some rb else none },
           some CompMetric.bodyDiff)
      ∨ doJob cfg true tSt tSt rb mh th ct mb tb = (none, none)
      ∨ doJob cfg true tSt tSt rb mh th ct mb tb = (none, some CompMetric.identical) := by
  have hbeq : (tSt == tSt) = true := by simp
  simp only [doJob, hbeq, Bool.not_true, Bool.false_eq_true, if_false, hhr]
  cases hcmp : (if contentTypeIsJson ct = true then JSONBytesEqual mb tb
      else dummyBytesEqual mb tb) with
  | error e => right; left; rfl
  | ok eq1 =>
    cases heq1 : eq1 with
    | true => right; right; simp
    | false =>
      cases hij : contentTypeIsJson ct with
      | false => left; simp [hij]
      | true =>
        simp only [hij, Bool.not_false, Bool.and_true, Bool.true_and, Bool.and_self]
        cases hmp : mb.parsed with
        | none => left; simp
        | some ja =>
          cases htp : tb.parsed with
          | none => left; simp
          | some jb =>
            cases hmask : Json.beq (maskAll cfg.skipJSONPaths jb)
                (maskAll cfg.skipJSONPaths ja) with
            | true => right; right; simp [hmask]
            | false => left; simp [hmask]

/-- C6: each comparison job stores at most one record, and only on a
divergence. The comparisons run status first, then headers (when the policy
compares them), then body; a stored record carries the comparison type of
the first divergence found, and when nothing diverges no record is stored
and only the identical metric is emitted. -/
theorem c6_job_comparison_order (cfg : ComputedRouteConfig)
    (mSt tSt : Nat) (rb : Str) (mh th : List (Str × List Str)) (ct : Str)
    (mb tb : Body) :
    (tSt ≠ mSt →
      doJob cfg true mSt tSt rb mh th ct mb tb
        = (some { comparisonType := CompType.statusDiff, differentHeaders := [],
                  requestBody := if cfg.storeReqBody then some rb else none },
           some CompMetric.statusDiff)) ∧
    (tSt = mSt → cfg.compareHeaders = true →
      compareHeadersFn cfg.skipHeaders mh th ≠ [] →
      doJob cfg true mSt tSt rb mh th ct mb tb
        = (some { comparisonType := CompType.headerDiff,
                  differentHeaders := compareHeadersFn cfg.skipHeaders mh th,
                  requestBody := if cfg.storeReqBody then some rb else none },
           some CompMetric.headerDiff)) ∧
    ((doJob cfg true mSt tSt rb mh th ct mb tb).2 = some CompMetric.identical →
      (doJob cfg true mSt tSt rb mh th ct mb tb).1 = none) ∧
    (∀ l, (doJob cfg true mSt tSt rb mh th ct mb tb).1 = some l →
      (l.comparisonType = CompType.statusDiff ↔ tSt ≠ mSt) ∧
        (l.comparisonType = CompType.headerDiff →
          tSt = mSt ∧ cfg.compareHeaders = true ∧
            compareHeadersFn cfg.skipHeaders mh th ≠ []) ∧
        (l.comparisonType = CompType.bodyDiff →
          tSt = mSt ∧ (cfg.compareHeaders = false ∨
            compareHeadersFn cfg.skipHeaders mh th = []))) := by
  by_cases hst : tSt = mSt
  · subst hst
    by_cases hch : cfg.compareHeaders = true
    · by_cases hdh : compareHeadersFn cfg.skipHeaders mh th = []
      · have hhr : (if cfg.compareHeaders then
            (if !(compareHeadersFn cfg.skipHeaders mh th).isEmpty then
              some { comparisonType := CompType.headerDiff,
                     differentHeaders := compareHeadersFn cfg.skipHeaders mh th,
                     requestBody := if cfg.storeReqBody then some rb else none }
             else none)
           else none) = (none : Option LogRec) := by
          simp [hch, hdh]
        rcases c6_body_phase_shape cfg tSt rb mh th ct mb tb hhr with h | h | h
        · refine ⟨fun hne => absurd rfl hne, fun _ _ hne => absurd hdh hne, ?_, ?_⟩
          · rw [h]
            simp
          · intro l hl
            rw [h] at hl
            simp only at hl
            obtain rfl := (Option.some.inj hl).symm
            exact ⟨by simp, by simp, fun _ => ⟨rfl, Or.inr hdh⟩⟩
        · refine ⟨fun hne => absurd rfl hne, fun _ _ hne => absurd hdh hne, ?_, ?_⟩
          · rw [h]
            simp
          · intro l hl
            rw [h] at hl
            simp at hl
        · refine ⟨fun hne => absurd rfl hne, fun _ _ hne => absurd hdh hne, ?_, ?_⟩
          · rw [h]
            simp
          · intro l hl
            rw [h] at hl
            simp at hl
      · have hie : (compareHeadersFn cfg.skipHeaders mh th).isEmpty = false := by
          cases hl : compareHeadersFn cfg.skipHeaders mh th with
          | nil => exact absurd hl hdh
          | cons a l => rfl
        have hbeq : (tSt == tSt) = true := by simp
        have hred : doJob cfg true tSt tSt rb mh th ct mb tb
            = (some { comparisonType := CompType.headerDiff,
                      differentHeaders := compareHeadersFn cfg.skipHeaders mh th,
                      requestBody := if cfg.storeReqBody then some rb else none },
               some CompMetric.headerDiff) := by
          simp only [doJob, hbeq, hch, hie, Bool.not_true, Bool.not_false,
            Bool.false_eq_true, if_false, if_true]
        refine ⟨fun hne => absurd rfl hne, fun _ _ _ => hred, ?_, ?_⟩
        · rw [hred]
          simp
        · intro l hl
          rw [hred] at hl
          simp only at hl
          obtain rfl := (Option.some.inj hl).symm
          exact ⟨by simp, fun _ => ⟨rfl, hch, hdh⟩, by simp⟩
    · have hchf : cfg.compareHeaders = false := by
        revert hch
        cases cfg.compareHeaders <;> simp
      have hhr : (if cfg.compareHeaders then
          (if !(compareHeadersFn cfg.skipHeaders mh th).isEmpty then
            some { comparisonType := CompType.headerDiff,
                   differentHeaders := compareHeadersFn cfg.skipHeaders mh th,
                   requestBody := if cfg.storeReqBody then some rb else none }
           else none)
         else none) = (none : Option LogRec) := by
        simp [hchf]
      rcases c6_body_phase_shape cfg tSt rb mh th ct mb tb hhr with h | h | h
      · refine ⟨fun hne => absurd rfl hne, fun _ hcc => absurd hcc (by simp [hchf]), ?_, ?_⟩
        · rw [h]
          simp
        · intro l hl
          rw [h] at hl
          simp only at hl
          obtain rfl := (Option.some.inj hl).symm
          exact ⟨by simp, by simp, fun _ => ⟨rfl, Or.inl hchf⟩⟩
      · refine ⟨fun hne => absurd rfl hne, fun _ hcc => absurd hcc (by simp [hchf]), ?_, ?_⟩
        · rw [h]
          simp
        · intro l hl
          rw [h] at hl
          simp at hl
      · refine ⟨fun hne => absurd rfl hne, fun _ hcc => absurd hcc (by simp [hchf]), ?_, ?_⟩
        · rw [h]
          simp
        · intro l hl
          rw [h] at hl
          simp at hl
  · have hbeqf : (tSt == mSt) = false := by simp [hst]
    have hred : doJob cfg true mSt tSt rb mh th ct mb tb
        = (some { comparisonType := CompType.statusDiff, differentHeaders := [],
                  requestBody := if cfg.storeReqBody then some rb else none },
           some CompMetric.statusDiff) := by
      simp only [doJob, hbeqf, Bool.not_true, Bool.not_false, Bool.false_eq_true,
        if_false, if_true]
    refine ⟨fun _ => hred, fun heq => absurd heq hst, ?_, ?_⟩
    · rw [hred]
      simp
    · intro l hl
      rw [hred] at hl
      simp only at hl
      obtain rfl := (Option.some.inj hl).symm
      exact ⟨⟨fun _ => hst, fun _ => rfl⟩, by simp, by simp⟩

theorem c6_job_comparison_order_witness :
    doJob ⟨true, true, [], false, true, [], 100⟩ true 200 500 (str "b") [] []
        (str "") ⟨str "x", none⟩ ⟨str "y", none⟩
      = (some { comparisonType := CompType.statusDiff, differentHeaders := [],
                requestBody := none }, some CompMetric.statusDiff) := by
  have h := (c6_job_comparison_order ⟨true, true, [], false, true, [], 100⟩
    200 500 (str "b") [] [] (str "") ⟨str "x", none⟩ ⟨str "y", none⟩).1 (by decide)
  simpa using h

/-- C7: mask soundness of the JSON skip paths: when the test document is
obtained from the main document by changing values only at dotted paths
listed in the policy skip list, then after both documents are rewritten by
setting every listed path to the sentinel the semantic re-comparison reports
them equal, and the job never stores a body-diff record for equal statuses
and a JSON content type. -/
theorem c7_mask_soundness (cfg : ComputedRouteConfig)
    (S : List (List Str × Json)) (ja jb : Json) (st : Nat) (rb : Str)
    (mh th : List (Str × List Str)) (ct : Str) (rawA rawB : Str)
    (hS : ∀ pv ∈ S, ∃ d ∈ cfg.skipJSONPaths, pv.1 = splitDots d)
    (hb : jb = setAll S ja) (hct : contentTypeIsJson ct = true) :
    Json.beq (maskAll cfg.skipJSONPaths jb) (maskAll cfg.skipJSONPaths ja) = true ∧
    ∀ l, (doJob cfg true st st rb mh th ct
        { raw := rawA, parsed := some ja }
        { raw := rawB, parsed := some jb }).1 = some l →
      l.comparisonType ≠ CompType.bodyDiff := by
  have hmask : maskAll cfg.skipJSONPaths jb = maskAll cfg.skipJSONPaths ja := by
    rw [hb]
    exact maskAll_setAll cfg.skipJSONPaths S ja hS
  refine ⟨by rw [hmask]; exact Json.beq_refl _, ?_⟩
  intro l hl
  have hstt : (st == st) = true := by simp
  by_cases hch : cfg.compareHeaders = true
  · by_cases hie : (compareHeadersFn cfg.skipHeaders mh th).isEmpty = true
    · have hhr : (if cfg.compareHeaders then
          (if !(compareHeadersFn cfg.skipHeaders mh th).isEmpty then
            some { comparisonType := CompType.headerDiff,
                   differentHeaders := compareHeadersFn cfg.skipHeaders mh th,
                   requestBody := if cfg.storeReqBody then some rb else none }
           else none)
         else none) = (none : Option LogRec) := by
        simp [hch, hie]
      rw [show doJob cfg true st st rb mh th ct
          { raw := rawA, parsed := some ja } { raw := rawB, parsed := some jb }
            = (none, some CompMetric.identical) from ?_] at hl
      · cases hl
      · simp only [doJob, hstt, Bool.not_true, Bool.false_eq_true, if_false, hhr,
          hct, if_true, JSONBytesEqual]
        cases hbeq1 : Json.beq jb ja with
        | true => simp
        | false => simp [hmask, Json.beq_refl]
    · have hief : (compareHeadersFn cfg.skipHeaders mh th).isEmpty = false := by
        revert hie
        cases (compareHeadersFn cfg.skipHeaders mh th).isEmpty <;> simp
      have hred : doJob cfg true st st rb mh th ct
          { raw := rawA, parsed := some ja } { raw := rawB, parsed := some jb }
          = (some { comparisonType := CompType.headerDiff,
                    differentHeaders := compareHeadersFn cfg.skipHeaders mh th,
                    requestBody := if cfg.storeReqBody then some rb else none },
             some CompMetric.headerDiff) := by
        simp only [doJob, hstt, hch, hief, Bool.not_true, Bool.not_false,
          Bool.false_eq_true, if_false, if_true]
      rw [hred] at hl
      simp only at hl
      obtain rfl := (Option.some.inj hl).symm
      simp
  · have hchf : cfg.compareHeaders = false := by
      revert hch
      cases cfg.compareHeaders <;> simp
    have hhr : (if cfg.compareHeaders then
        (if !(compareHeadersFn cfg.skipHeaders mh th).isEmpty then
          some { comparisonType := CompType.headerDiff,
                 differentHeaders := compareHeadersFn cfg.skipHeaders mh th,
                 requestBody := if cfg.storeReqBody then some rb else none }
         else none)
       else none) = (none : Option LogRec) := by
      simp [hchf]
    rw [show doJob cfg true st st rb mh th ct
        { raw := rawA, parsed := some ja } { raw := rawB, parsed := some jb }
          = (none, some CompMetric.identical) from ?_] at hl
    · cases hl
    · simp only [doJob, hstt, Bool.not_true, Bool.false_eq_true, if_false, hhr,
        hct, if_true, JSONBytesEqual]
      cases hbeq1 : Json.beq jb ja with
      | true => simp
      | false => simp [hmask, Json.beq_refl]

theorem c7_mask_soundness_witness :
    Json.beq
        (maskAll [str "ts"] (setAll [([str "ts"], Json.str (str "B"))]
          (Json.obj [(str "ts", Json.str (str "A")), (str "v", Json.num 1)])))
        (maskAll [str "ts"] (Json.obj [(str "ts", Json.str (str "A")), (str "v", Json.num 1)]))
      = true :=
  (c7_mask_soundness ⟨true, true, [], false, true, [str "ts"], 100⟩
    [([str "ts"], Json.str (str "B"))]
    (Json.obj [(str "ts", Json.str (str "A")), (str "v", Json.num 1)])
    (setAll [([str "ts"], Json.str (str "B"))]
      (Json.obj [(str "ts", Json.str (str "A")), (str "v", Json.num 1)]))
    200 (str "") [] [] (str "application/json") (str "x") (str "y")
    (by decide) rfl (by decide)).1
